import Mathlib

/-!
Verification of the Basis-Zero constant-product AMM for binary (YES/NO)
prediction markets, against its natural-language specification.

The repository splits into a pure pricing/execution engine
(`types.ts`, `pool.ts`, `mint-swap.ts` — not present in the source tree,
modelled here from the specification), a database-backed pool manager
(`src/backend/src/amm/db-pool-manager.ts`), a persistence-synchronization
wrapper with an in-memory cache
(`src/frontend/lib/amm/persistent-pool-manager.ts`), and thin HTTP routes
(`src/frontend/app/api/amm/bet/route.ts`, the express `ammRouter`).

Monetary quantities are TypeScript `bigint` (arbitrary-precision signed
integers), embedded as `Int`; `bigint` division truncates toward zero and
is embedded as `Int.tdiv`.  Floating-point price/probability display values
are embedded as exact rationals (the spec directs that these are
display-only derived projections).  Timestamps (`createdAt`, `updatedAt`)
are informational only, not used in pricing, and are omitted.
-/

set_option linter.unusedVariables false

namespace BasisZero

/-- The two-valued outcome enumeration from `types.ts` (modelled from the
spec: `outcome is a two-valued enumeration {YES, NO}`). -/
inductive Outcome where
  | YES
  | NO
deriving DecidableEq, Repr

/-- The opposite side of an outcome. -/
def Outcome.other : Outcome → Outcome
  | .YES => .NO
  | .NO => .YES

/-- Error taxonomy of the spec (§7).  The source signals these as thrown
`Error` values with human-readable messages; we keep the machine-readable
kinds. -/
inductive AmmError where
  | InvalidArgument
  | NotFound
  | InsufficientLiquidity
  | MarketNotActive
  | NoPosition
deriving DecidableEq, Repr

/-- Modelled from the spec: `PoolState` of the missing `types.ts`.
Field list follows the pool literals constructed in
`db-pool-manager.ts` (`marketId`, `yesReserves`, `noReserves`, `k`,
`virtualLiquidity`, `totalCollateral`); timestamps omitted. -/
structure PoolState where
  marketId : String
  yesReserves : Int
  noReserves : Int
  k : Int
  virtualLiquidity : Int
  totalCollateral : Int
deriving DecidableEq, Repr

/-- Reserves of the chosen outcome side. -/
def reservesFor (p : PoolState) (o : Outcome) : Int :=
  match o with
  | .YES => p.yesReserves
  | .NO => p.noReserves

/-- Write back the (chosen, other) reserve pair for a trade on outcome `o`
and recompute the stored invariant `k` as the product of the new
`yesReserves` and `noReserves` (spec §4.4: `k' = yesReserves' ×
noReserves'`, recomputed, not held to the pre-trade value). -/
def commitReserves (p : PoolState) (o : Outcome) (chosen other : Int) : PoolState :=
  match o with
  | .YES => { p with yesReserves := chosen, noReserves := other, k := chosen * other }
  | .NO => { p with yesReserves := other, noReserves := chosen, k := other * chosen }

/-- Modelled from the spec (§4.2): `createPool(marketId, initialLiquidity)`
of the missing `pool.ts`.  Fails with `InvalidArgument` if the liquidity is
zero or negative; otherwise seeds both reserves with the liquidity,
`k = initialLiquidity²`, `totalCollateral = 2 × initialLiquidity`. -/
def createPool (marketId : String) (initialLiquidity : Int) : Except AmmError PoolState :=
  if initialLiquidity ≤ 0 then .error .InvalidArgument
  else .ok {
    marketId := marketId,
    yesReserves := initialLiquidity,
    noReserves := initialLiquidity,
    k := initialLiquidity * initialLiquidity,
    virtualLiquidity := initialLiquidity,
    totalCollateral := 2 * initialLiquidity }

/-- Quote returned by `quoteBet` (display-only `priceImpact` omitted). -/
structure BetQuote where
  expectedShares : Int
  effectivePrice : Rat
deriving DecidableEq, Repr

/-- Modelled from the spec (§4.3): `quoteBet` of the missing
`mint-swap.ts`.  `otherReserves' = otherReserves + usdcIn`,
`chosenReserves' = k / otherReserves'` with truncating division,
`sharesOut = chosenReserves − chosenReserves'`, which must be `> 0` and
`< chosenReserves`, else `InsufficientLiquidity`; a zero or negative
amount fails with `InvalidArgument` before any reserve math. -/
def quoteBet (pool : PoolState) (usdcIn : Int) (outcome : Outcome) : Except AmmError BetQuote :=
  if usdcIn ≤ 0 then .error .InvalidArgument
  else
    let chosen := reservesFor pool outcome
    let other := reservesFor pool outcome.other
    let newOther := other + usdcIn
    let newChosen := pool.k.tdiv newOther
    let sharesOut := chosen - newChosen
    if sharesOut ≤ 0 then .error .InsufficientLiquidity
    else if chosen ≤ sharesOut then .error .InsufficientLiquidity
    else .ok { expectedShares := sharesOut, effectivePrice := (usdcIn : Rat) / (sharesOut : Rat) }

/-- Result of `placeBet` (display-only fields omitted). -/
structure BetResult where
  newPoolState : PoolState
  totalShares : Int
  effectivePrice : Rat
deriving DecidableEq, Repr

/-- Modelled from the spec (§4.4): `placeBet` of the missing
`mint-swap.ts`.  Quotes, then commits: `chosenReserves -= sharesOut`,
`otherReserves += usdcIn`, recomputes `k`, `totalCollateral += usdcIn`. -/
def placeBet (pool : PoolState) (usdcIn : Int) (outcome : Outcome) : Except AmmError BetResult :=
  (quoteBet pool usdcIn outcome).map fun q =>
    let chosen := reservesFor pool outcome - q.expectedShares
    let other := reservesFor pool outcome.other + usdcIn
    { newPoolState :=
        { commitReserves pool outcome chosen other with
            totalCollateral := pool.totalCollateral + usdcIn },
      totalShares := q.expectedShares,
      effectivePrice := q.effectivePrice }

/-- Result of `sellPosition` (display-only `priceImpact` omitted). -/
structure SellResult where
  newPoolState : PoolState
  usdcOut : Int
deriving DecidableEq, Repr

/-- Modelled from the spec (§4.3 `quoteSell`, §4.4 `sellPosition`) of the
missing `mint-swap.ts`: shares are added to the chosen side,
`otherReserves' = k / chosenReserves'` with truncating division,
`usdcOut = otherReserves − otherReserves'`; fails with
`InsufficientLiquidity` when the payout is not positive or would drain the
counter-side below the minimum-reserves floor of 1 base unit (the floor
the spec instructs the implementer to pick, §4.3/§9); the engine trusts
the share count given to it (ownership checks are external, §4.4). -/
def sellPosition (pool : PoolState) (sharesIn : Int) (outcome : Outcome) : Except AmmError SellResult :=
  if sharesIn ≤ 0 then .error .InvalidArgument
  else
    let chosen := reservesFor pool outcome
    let other := reservesFor pool outcome.other
    let newChosen := chosen + sharesIn
    let newOther := pool.k.tdiv newChosen
    let usdcOut := other - newOther
    if usdcOut ≤ 0 then .error .InsufficientLiquidity
    else if newOther < 1 then .error .InsufficientLiquidity
    else .ok {
      newPoolState :=
        { commitReserves pool outcome newChosen newOther with
            totalCollateral := pool.totalCollateral - usdcOut },
      usdcOut := usdcOut }

/-- Prices and integer probabilities as computed inline by
`createMarketDB` / `getActiveMarketsDB` / `getMarketDB`
(`db-pool-manager.ts`): `yesPrice = noReserves / (yes + no)` (0.5 when the
pool is empty), `noPrice = 1 − yesPrice`, probabilities rounded to whole
percentage points with half-up rounding (`Math.round`). -/
structure PoolPrices where
  yesPrice : Rat
  noPrice : Rat
  yesProbability : Int
  noProbability : Int
deriving DecidableEq, Repr

/-- The price computation of `db-pool-manager.ts` on a reserve pair. -/
def pricesOf (yesReserves noReserves : Int) : PoolPrices :=
  let total := yesReserves + noReserves
  let yesPrice : Rat := if 0 < total then (noReserves : Rat) / (total : Rat) else 1 / 2
  let noPrice : Rat := 1 - yesPrice
  { yesPrice := yesPrice,
    noPrice := noPrice,
    yesProbability := round (yesPrice * 100),
    noProbability := round (noPrice * 100) }

/-- `getPrices` of the missing `pool.ts`, modelled from the spec and the
identical inline computation in `db-pool-manager.ts`. -/
def getPrices (p : PoolState) : PoolPrices :=
  pricesOf p.yesReserves p.noReserves

/-- One buy or sell operation at the engine level. -/
inductive TradeOp where
  | buy (usdcIn : Int) (outcome : Outcome)
  | sell (sharesIn : Int) (outcome : Outcome)
deriving DecidableEq, Repr

/-- Apply one operation to a pool, keeping only the new pool state. -/
def applyOp (p : PoolState) (op : TradeOp) : Except AmmError PoolState :=
  match op with
  | .buy a o => (placeBet p a o).map fun r => r.newPoolState
  | .sell s o => (sellPosition p s o).map fun r => r.newPoolState

/-- Run a sequence of operations, stopping at the first failure. -/
def runOps (p : PoolState) : List TradeOp → Except AmmError PoolState
  | [] => .ok p
  | op :: rest =>
    match applyOp p op with
    | .error e => .error e
    | .ok q => runOps q rest

/-- Internal self-consistency of a pool: the stored invariant equals the
product of the current reserves and both reserves are strictly positive. -/
def PoolWF (p : PoolState) : Prop :=
  p.k = p.yesReserves * p.noReserves ∧ 0 < p.yesReserves ∧ 0 < p.noReserves

instance (p : PoolState) : Decidable (PoolWF p) := by
  unfold PoolWF; infer_instance

theorem reservesFor_commit (p : PoolState) (o : Outcome) (c r : Int) :
    reservesFor (commitReserves p o c r) o = c := by
  cases o <;> rfl

theorem reservesFor_commit_other (p : PoolState) (o : Outcome) (c r : Int) :
    reservesFor (commitReserves p o c r) o.other = r := by
  cases o <;> rfl

theorem k_commit (p : PoolState) (o : Outcome) (c r : Int) :
    (commitReserves p o c r).k = c * r := by
  cases o
  · rfl
  · exact Int.mul_comm r c

theorem k_eq_reserves_mul {p : PoolState} (h : PoolWF p) (o : Outcome) :
    p.k = reservesFor p o * reservesFor p o.other := by
  obtain ⟨hk, -, -⟩ := h
  cases o <;> simp [reservesFor, Outcome.other, hk, Int.mul_comm]

theorem reservesFor_pos {p : PoolState} (h : PoolWF p) (o : Outcome) :
    0 < reservesFor p o := by
  cases o
  · exact h.2.1
  · exact h.2.2

theorem PoolWF_setCollateral {p : PoolState} (t : Int) (h : PoolWF p) :
    PoolWF { p with totalCollateral := t } := h

theorem commitReserves_wf {p : PoolState} {o : Outcome} {c r : Int}
    (hc : 0 < c) (hr : 0 < r) : PoolWF (commitReserves p o c r) := by
  cases o
  · exact ⟨rfl, hc, hr⟩
  · exact ⟨rfl, hr, hc⟩

/-- Everything a successful `quoteBet` tells us: positive amount,
positive share count strictly below the chosen reserve, and the exact
constant-product value of the share count. -/
theorem quoteBet_ok_facts {p : PoolState} {a : Int} {o : Outcome} {q : BetQuote}
    (h : quoteBet p a o = .ok q) :
    0 < a ∧ q.expectedShares = reservesFor p o - p.k.tdiv (reservesFor p o.other + a) ∧
    0 < q.expectedShares ∧ q.expectedShares < reservesFor p o := by
  simp only [quoteBet] at h
  split at h
  · simp at h
  · split at h
    · simp at h
    · split at h
      · simp at h
      · rename_i h1 h2 h3
        simp only [Except.ok.injEq] at h
        subst h
        refine ⟨by omega, rfl, ?_, ?_⟩ <;> (dsimp only; omega)

/-- Everything a successful `placeBet` tells us: the quote facts plus the
exact shape of the committed new pool state. -/
theorem placeBet_ok_facts {p : PoolState} {a : Int} {o : Outcome} {r : BetResult}
    (h : placeBet p a o = .ok r) :
    0 < a ∧ 0 < r.totalShares ∧ r.totalShares < reservesFor p o ∧
    r.totalShares = reservesFor p o - p.k.tdiv (reservesFor p o.other + a) ∧
    r.newPoolState =
      { commitReserves p o (reservesFor p o - r.totalShares) (reservesFor p o.other + a) with
          totalCollateral := p.totalCollateral + a } := by
  unfold placeBet at h
  cases hq : quoteBet p a o with
  | error e => rw [hq] at h; simp [Except.map] at h
  | ok q =>
    rw [hq] at h
    obtain ⟨ha, hval, hpos, hlt⟩ := quoteBet_ok_facts hq
    simp only [Except.map, Except.ok.injEq] at h
    subst h
    exact ⟨ha, hpos, hlt, hval, rfl⟩

/-- Everything a successful `sellPosition` tells us. -/
theorem sellPosition_ok_facts {p : PoolState} {s : Int} {o : Outcome} {r : SellResult}
    (h : sellPosition p s o = .ok r) :
    0 < s ∧ 0 < r.usdcOut ∧ 1 ≤ p.k.tdiv (reservesFor p o + s) ∧
    r.usdcOut = reservesFor p o.other - p.k.tdiv (reservesFor p o + s) ∧
    r.newPoolState =
      { commitReserves p o (reservesFor p o + s) (p.k.tdiv (reservesFor p o + s)) with
          totalCollateral := p.totalCollateral - r.usdcOut } := by
  simp only [sellPosition] at h
  split at h
  · simp at h
  · split at h
    · simp at h
    · split at h
      · simp at h
      · rename_i h1 h2 h3
        simp only [Except.ok.injEq] at h
        subst h
        refine ⟨by omega, ?_, by omega, rfl, rfl⟩
        dsimp only
        omega

theorem placeBet_wf {p : PoolState} {a : Int} {o : Outcome} {r : BetResult}
    (hwf : PoolWF p) (h : placeBet p a o = .ok r) : PoolWF r.newPoolState := by
  obtain ⟨ha, hs, hlt, -, hpool⟩ := placeBet_ok_facts h
  rw [hpool]
  have h2 : 0 < reservesFor p o.other + a := by
    have := reservesFor_pos hwf o.other; omega
  exact PoolWF_setCollateral _ (commitReserves_wf (by omega) h2)

theorem sellPosition_wf {p : PoolState} {s : Int} {o : Outcome} {r : SellResult}
    (hwf : PoolWF p) (h : sellPosition p s o = .ok r) : PoolWF r.newPoolState := by
  obtain ⟨hs, hu, hfloor, -, hpool⟩ := sellPosition_ok_facts h
  rw [hpool]
  have h1 : 0 < reservesFor p o + s := by
    have := reservesFor_pos hwf o; omega
  exact PoolWF_setCollateral _ (commitReserves_wf h1 (by omega))

theorem applyOp_wf {p q : PoolState} {op : TradeOp}
    (hwf : PoolWF p) (h : applyOp p op = .ok q) : PoolWF q := by
  cases op with
  | buy a o =>
    simp only [applyOp] at h
    cases hb : placeBet p a o with
    | error e => rw [hb] at h; simp [Except.map] at h
    | ok r =>
      rw [hb] at h
      simp only [Except.map, Except.ok.injEq] at h
      subst h
      exact placeBet_wf hwf hb
  | sell s o =>
    simp only [applyOp] at h
    cases hb : sellPosition p s o with
    | error e => rw [hb] at h; simp [Except.map] at h
    | ok r =>
      rw [hb] at h
      simp only [Except.map, Except.ok.injEq] at h
      subst h
      exact sellPosition_wf hwf hb

theorem runOps_wf {p q : PoolState} {ops : List TradeOp}
    (hwf : PoolWF p) (h : runOps p ops = .ok q) : PoolWF q := by
  induction ops generalizing p with
  | nil => simp only [runOps, Except.ok.injEq] at h; subst h; exact hwf
  | cons op rest ih =>
    unfold runOps at h
    cases ha : applyOp p op with
    | error e => rw [ha] at h; simp at h
    | ok pp =>
      rw [ha] at h
      exact ih (applyOp_wf hwf ha) h

theorem createPool_wf {m : String} {L : Int} {p : PoolState}
    (h : createPool m L = .ok p) : PoolWF p := by
  unfold createPool at h
  split at h
  · simp at h
  · rename_i hL
    simp only [Except.ok.injEq] at h
    subst h
    refine ⟨rfl, ?_, ?_⟩ <;> (show (0 : Int) < L; omega)

theorem reservesFor_setCollateral (p : PoolState) (t : Int) (o : Outcome) :
    reservesFor { p with totalCollateral := t } o = reservesFor p o := by
  cases o
  · rfl
  · rfl

theorem k_setCollateral (p : PoolState) (t : Int) :
    ({ p with totalCollateral := t } : PoolState).k = p.k := rfl

/-- C1: for every sequence of valid buy/sell operations starting from
`createPool(m, L)`, after each operation the stored invariant `k` equals
the product of the new `yesReserves` and `noReserves` of the state just
produced (`k` is recomputed, not held to the pre-trade value), and both
reserves remain strictly positive.  Every "after each operation" state is
the final state of the run over the corresponding prefix of operations, so
quantifying over all operation lists covers each intermediate state. -/
theorem createPool_runOps_invariant (m : String) (L : Int) (p q : PoolState)
    (ops : List TradeOp) (hc : createPool m L = .ok p) (hr : runOps p ops = .ok q) :
    q.k = q.yesReserves * q.noReserves ∧ 0 < q.yesReserves ∧ 0 < q.noReserves :=
  runOps_wf (createPool_wf hc) hr

/-- Witness for C1 at a concrete run: seed 10, buy 5 on YES, then sell 4
YES shares back. -/
theorem createPool_runOps_invariant_witness :
    (90 : Int) = 10 * 9 ∧ (0 : Int) < 10 ∧ (0 : Int) < 9 := by
  have h := createPool_runOps_invariant "m" 10
    { marketId := "m", yesReserves := 10, noReserves := 10, k := 100,
      virtualLiquidity := 10, totalCollateral := 20 }
    { marketId := "m", yesReserves := 10, noReserves := 9, k := 90,
      virtualLiquidity := 10, totalCollateral := 19 }
    [TradeOp.buy 5 .YES, TradeOp.sell 4 .YES] rfl rfl
  exact h

/-- C2 (amended): buying an outcome with `x` USDC and immediately selling
all received shares back returns at least `x` — the truncation in the sell
rounds the pool's remaining counter-reserve down, i.e. rounds the payout
up, in the trader's favor (the opposite direction of the claim). -/
theorem buy_then_sell_returns_at_least {p : PoolState} {x : Int} {o : Outcome}
    {r1 : BetResult} {r2 : SellResult}
    (hwf : PoolWF p)
    (h1 : placeBet p x o = .ok r1)
    (h2 : sellPosition r1.newPoolState r1.totalShares o = .ok r2) :
    x ≤ r2.usdcOut := by
  obtain ⟨hx, hs, hlt, hval, hpool⟩ := placeBet_ok_facts h1
  obtain ⟨-, -, -, husd, -⟩ := sellPosition_ok_facts h2
  have hy : 0 < reservesFor p o := reservesFor_pos hwf o
  have hn : 0 < reservesFor p o.other := reservesFor_pos hwf o.other
  have hk : p.k = reservesFor p o * reservesFor p o.other := k_eq_reserves_mul hwf o
  have hA : reservesFor r1.newPoolState o = reservesFor p o - r1.totalShares := by
    rw [hpool, reservesFor_setCollateral, reservesFor_commit]
  have hB : reservesFor r1.newPoolState o.other = reservesFor p o.other + x := by
    rw [hpool, reservesFor_setCollateral, reservesFor_commit_other]
  have hK : r1.newPoolState.k
      = (reservesFor p o - r1.totalShares) * (reservesFor p o.other + x) := by
    rw [hpool, k_setCollateral, k_commit]
  rw [hA, hB, hK] at husd
  have hcancel : reservesFor p o - r1.totalShares + r1.totalShares = reservesFor p o := by
    ring
  rw [hcancel] at husd
  have hy1 : 0 < reservesFor p o - r1.totalShares := by linarith
  have hnx : 0 < reservesFor p o.other + x := by linarith
  have htd : p.k.tdiv (reservesFor p o.other + x) = p.k / (reservesFor p o.other + x) :=
    Int.tdiv_eq_ediv (by rw [hk]; exact mul_nonneg hy.le hn.le) hnx.le
  have h6 : reservesFor p o - r1.totalShares = p.k / (reservesFor p o.other + x) := by
    rw [← htd]; linarith [hval]
  have hmul : (reservesFor p o - r1.totalShares) * (reservesFor p o.other + x)
      ≤ reservesFor p o * reservesFor p o.other := by
    rw [h6, hk]
    exact Int.ediv_mul_le _ hnx.ne'
  have hb1 : ((reservesFor p o - r1.totalShares) * (reservesFor p o.other + x)).tdiv
        (reservesFor p o)
      = ((reservesFor p o - r1.totalShares) * (reservesFor p o.other + x))
        / (reservesFor p o) :=
    Int.tdiv_eq_ediv (mul_nonneg hy1.le hnx.le) hy.le
  have hb2 : ((reservesFor p o - r1.totalShares) * (reservesFor p o.other + x))
        / (reservesFor p o)
      ≤ (reservesFor p o * reservesFor p o.other) / (reservesFor p o) :=
    Int.ediv_le_ediv hy hmul
  have hb3 : (reservesFor p o * reservesFor p o.other) / (reservesFor p o)
      = reservesFor p o.other :=
    Int.mul_ediv_cancel_left _ hy.ne'
  rw [husd, hb1]
  linarith [hb2, hb3]

/-- The spec's §8 concrete round trip: create a pool with liquidity `L`,
buy `x` USDC of YES, then immediately sell all received shares back;
`none` if any step fails, otherwise the USDC returned by the sell. -/
def roundTrip (L x : Int) : Option Int :=
  match createPool "m" L with
  | .error _ => none
  | .ok p =>
    match placeBet p x .YES with
    | .error _ => none
    | .ok r1 =>
      match sellPosition r1.newPoolState r1.totalShares .YES with
      | .error _ => none
      | .ok r2 => some r2.usdcOut

/-- C2 (counterexample): the spec's own §8 scenario.  Seed the pool with
10 USDC (10 000 000 micro-USDC per side), buy 1 000 000 micro-USDC of YES
(909 091 shares out), then sell all 909 091 shares back immediately: the
pool pays 1 000 001 micro-USDC — strictly more than was paid in, because
`k` is recomputed after the buy and the sell truncates the remaining
counter-reserve downward, which rounds the payout up in the trader's
favor. -/
theorem roundTrip_exceeds_input :
    roundTrip 10000000 1000000 = some 1000001 ∧ (1000000 : Int) < 1000001 :=
  ⟨rfl, by norm_num⟩

/-- Witness for the amended C2 at the same concrete input. -/
theorem buy_then_sell_returns_at_least_witness : (1000000 : Int) ≤ 1000001 := by
  have h := @buy_then_sell_returns_at_least
    { marketId := "m", yesReserves := 10000000, noReserves := 10000000,
      k := 100000000000000, virtualLiquidity := 10000000,
      totalCollateral := 20000000 }
    1000000 .YES
    { newPoolState :=
        { marketId := "m", yesReserves := 9090909, noReserves := 11000000,
          k := 99999999000000, virtualLiquidity := 10000000,
          totalCollateral := 21000000 },
      totalShares := 909091,
      effectivePrice := (1000000 : Rat) / 909091 }
    { newPoolState :=
        { marketId := "m", yesReserves := 10000000, noReserves := 9999999,
          k := 99999990000000, virtualLiquidity := 10000000,
          totalCollateral := 19999999 },
      usdcOut := 1000001 }
    (by refine ⟨rfl, ?_, ?_⟩ <;> norm_num) rfl rfl
  exact h

/-! ## Backend database layer (`src/backend/src/amm/db-pool-manager.ts`)

The durable store itself (`amm-repository.ts`) is not in the source tree;
following the spec (§4.5) it is modelled as simple get/put row operations
keyed by market id (markets) and by (user, market, outcome) with a SQL
uniqueness constraint on that triple (positions, `part_005`). -/

/-- Market lifecycle status, from the `MarketWithMetadata` type. -/
inductive MarketStatus where
  | ACTIVE
  | RESOLVED
  | CANCELLED
deriving DecidableEq, Repr

/-- One row of the `markets` table, restricted to the fields the AMM
operations read or write. -/
structure MarketRow where
  marketId : String
  title : String
  status : MarketStatus
  resolutionValue : Option Outcome
  yesReserves : Int
  noReserves : Int
  kInvariant : Int
deriving DecidableEq, Repr

/-- One row of the `positions` table (`part_005`): unique on
(user, market, outcome), `shares` plus `average_entry_price`. -/
structure PositionRow where
  userId : String
  marketId : String
  outcome : Outcome
  shares : Int
  averageEntryPrice : Rat
deriving DecidableEq, Repr

/-- The durable store: markets table plus positions table. -/
structure DbState where
  markets : List MarketRow
  positions : List PositionRow
deriving DecidableEq, Repr

/-- Key predicate for a position row. -/
def posKey (u m : String) (o : Outcome) (row : PositionRow) : Bool :=
  row.userId == u && row.marketId == m && row.outcome == o

/-- Modelled from the spec: `db.getMarket` — read the row keyed by
market id. -/
def dbGetMarket (db : DbState) (m : String) : Option MarketRow :=
  db.markets.find? (fun row => row.marketId == m)

/-- Modelled from the spec: `db.updateMarketReserves` — write the three
reserve columns of the row keyed by market id. -/
def dbUpdateMarketReserves (db : DbState) (m : String) (yes no k : Int) : DbState :=
  { db with markets := db.markets.map (fun row =>
      if row.marketId == m then
        { row with yesReserves := yes, noReserves := no, kInvariant := k }
      else row) }

/-- Modelled from the spec: `db.getPosition` keyed by
(user, market, outcome). -/
def dbGetPosition (db : DbState) (u m : String) (o : Outcome) : Option PositionRow :=
  db.positions.find? (posKey u m o)

/-- Modelled from the spec: `db.upsertPosition` — update the row in place
when the unique key exists, insert it otherwise. -/
def dbUpsertPosition (db : DbState) (u m : String) (o : Outcome)
    (shares : Int) (price : Rat) : DbState :=
  if (dbGetPosition db u m o).isSome then
    { db with positions := db.positions.map (fun row =>
        if posKey u m o row then { row with shares := shares, averageEntryPrice := price }
        else row) }
  else
    { db with positions := db.positions ++
        [{ userId := u, marketId := m, outcome := o,
           shares := shares, averageEntryPrice := price }] }

/-- The pool literal `placeBetDB`/`sellPositionDB`/`quoteBetDB` build from
a market row (`db-pool-manager.ts` lines 200–209): reserves and `k` from
the row, `virtualLiquidity` set to the row's YES reserves and
`totalCollateral` set to `0`. -/
def rowToPoolB (row : MarketRow) : PoolState :=
  { marketId := row.marketId,
    yesReserves := row.yesReserves,
    noReserves := row.noReserves,
    k := row.kInvariant,
    virtualLiquidity := row.yesReserves,
    totalCollateral := 0 }

/-- `createMarketDB`: inserts a market row seeded with equal reserves and
`k = initialLiquidity²`. -/
def createMarketDB (db : DbState) (m title : String) (initialLiquidity : Int) :
    DbState × MarketRow :=
  let row : MarketRow :=
    { marketId := m, title := title, status := .ACTIVE, resolutionValue := none,
      yesReserves := initialLiquidity, noReserves := initialLiquidity,
      kInvariant := initialLiquidity * initialLiquidity }
  ({ db with markets := db.markets ++ [row] }, row)

/-- `placeBetDB` (`db-pool-manager.ts` 183–244): load the market row,
reject missing or non-ACTIVE markets, run the engine, write the new
reserves, then read-and-add the user's position.  Thrown errors leave the
store unchanged; the state is returned in both cases. -/
def placeBetDB (db : DbState) (m u : String) (usdcAmount : Int) (o : Outcome) :
    DbState × Except AmmError BetResult :=
  match dbGetMarket db m with
  | none => (db, .error .NotFound)
  | some row =>
    if row.status ≠ .ACTIVE then (db, .error .MarketNotActive)
    else
      match placeBet (rowToPoolB row) usdcAmount o with
      | .error e => (db, .error e)
      | .ok res =>
        let db1 := dbUpdateMarketReserves db m
          res.newPoolState.yesReserves res.newPoolState.noReserves res.newPoolState.k
        let currentShares :=
          match dbGetPosition db1 u m o with
          | some pos => pos.shares
          | none => 0
        let db2 := dbUpsertPosition db1 u m o (currentShares + res.totalShares) res.effectivePrice
        (db2, .ok res)

/-- `sellPositionDB` (`db-pool-manager.ts` 300–360): load the market row,
reject missing or non-ACTIVE markets, reject a missing position, reject
`held < sharesAmount`, run the engine, write reserves, then decrement the
position by exactly the shares sold. -/
def sellPositionDB (db : DbState) (m u : String) (sharesAmount : Int) (o : Outcome) :
    DbState × Except AmmError SellResult :=
  match dbGetMarket db m with
  | none => (db, .error .NotFound)
  | some row =>
    if row.status ≠ .ACTIVE then (db, .error .MarketNotActive)
    else
      match dbGetPosition db u m o with
      | none => (db, .error .NoPosition)
      | some pos =>
        if pos.shares < sharesAmount then (db, .error .InsufficientLiquidity)
        else
          match sellPosition (rowToPoolB row) sharesAmount o with
          | .error e => (db, .error e)
          | .ok res =>
            let db1 := dbUpdateMarketReserves db m
              res.newPoolState.yesReserves res.newPoolState.noReserves res.newPoolState.k
            let db2 := dbUpsertPosition db1 u m o (pos.shares - sharesAmount) pos.averageEntryPrice
            (db2, .ok res)

/-- What `getPositionDB` reports: shares per side, `costBasis` hard-coded
to `'0'` (`db-pool-manager.ts` line 293). -/
structure PositionView where
  yesShares : Int
  noShares : Int
  costBasis : Int
deriving DecidableEq, Repr

/-- `getPositionDB` (`db-pool-manager.ts` 281–295). -/
def getPositionDB (db : DbState) (m u : String) : Option PositionView :=
  let yesPos := dbGetPosition db u m .YES
  let noPos := dbGetPosition db u m .NO
  match yesPos, noPos with
  | none, none => none
  | _, _ => some
      { yesShares := ((dbGetPosition db u m .YES).map (fun r => r.shares)).getD 0,
        noShares := ((dbGetPosition db u m .NO).map (fun r => r.shares)).getD 0,
        costBasis := 0 }

theorem dbGetPosition_updateReserves (db : DbState) (m' : String) (y n k : Int)
    (u m : String) (o : Outcome) :
    dbGetPosition (dbUpdateMarketReserves db m' y n k) u m o = dbGetPosition db u m o := rfl

theorem posKey_update_pred (u m : String) (o : Outcome) (sh : Int) (pr : Rat) :
    (posKey u m o) ∘
      (fun row => if posKey u m o row then { row with shares := sh, averageEntryPrice := pr }
                  else row)
      = posKey u m o := by
  funext row
  simp only [Function.comp]
  by_cases h : posKey u m o row
  · rw [if_pos h]
    rfl
  · rw [if_neg h]


theorem dbGetPosition_upsert_same (db : DbState) (u m : String) (o : Outcome)
    (sh : Int) (pr : Rat) :
    (dbGetPosition (dbUpsertPosition db u m o sh pr) u m o).map (fun r => r.shares)
      = some sh := by
  unfold dbUpsertPosition
  by_cases hs : (dbGetPosition db u m o).isSome
  · rw [if_pos hs]
    unfold dbGetPosition
    rw [List.find?_map, posKey_update_pred u m o sh pr]
    unfold dbGetPosition at hs
    cases hf : db.positions.find? (posKey u m o) with
    | none => rw [hf] at hs; simp at hs
    | some r =>
      have hkey : posKey u m o r = true := List.find?_some hf
      simp [hkey]
  · rw [if_neg hs]
    unfold dbGetPosition at hs ⊢
    rw [List.find?_append, Option.not_isSome_iff_eq_none.mp hs]
    simp [posKey]

theorem placeBetDB_position_exact {db db' : DbState} {m u : String} {amt : Int}
    {o : Outcome} {res : BetResult} (h : placeBetDB db m u amt o = (db', .ok res)) :
    (dbGetPosition db' u m o).map (fun r => r.shares)
      = some ((((dbGetPosition db u m o).map (fun r => r.shares)).getD 0) + res.totalShares) := by
  unfold placeBetDB at h
  cases hm : dbGetMarket db m with
  | none => rw [hm] at h; simp at h
  | some row =>
    rw [hm] at h
    dsimp only at h
    split at h
    · simp at h
    · cases hb : placeBet (rowToPoolB row) amt o with
      | error e => rw [hb] at h; simp at h
      | ok r =>
        rw [hb] at h
        dsimp only at h
        simp only [Prod.mk.injEq, Except.ok.injEq] at h
        obtain ⟨hdb, hres⟩ := h
        subst hres
        subst hdb
        rw [dbGetPosition_upsert_same]
        rw [dbGetPosition_updateReserves]
        cases hp : dbGetPosition db u m o with
        | none => simp
        | some pos => simp

theorem sellPositionDB_position_exact {db db' : DbState} {m u : String} {amt : Int}
    {o : Outcome} {res : SellResult} {pos : PositionRow}
    (hp : dbGetPosition db u m o = some pos)
    (h : sellPositionDB db m u amt o = (db', .ok res)) :
    (dbGetPosition db' u m o).map (fun r => r.shares) = some (pos.shares - amt)
      ∧ 0 ≤ pos.shares - amt := by
  unfold sellPositionDB at h
  cases hm : dbGetMarket db m with
  | none => rw [hm] at h; simp at h
  | some row =>
    rw [hm] at h
    dsimp only at h
    split at h
    · simp at h
    · rw [hp] at h
      dsimp only at h
      split at h
      · simp at h
      · rename_i hge
        cases hb : sellPosition (rowToPoolB row) amt o with
        | error e => rw [hb] at h; simp at h
        | ok r =>
          rw [hb] at h
          dsimp only at h
          simp only [Prod.mk.injEq, Except.ok.injEq] at h
          obtain ⟨hdb, hres⟩ := h
          subst hres
          subst hdb
          refine ⟨?_, by omega⟩
          rw [dbGetPosition_upsert_same]

/-! ## Frontend persistence wrapper
(`src/frontend/lib/amm/persistent-pool-manager.ts`)

The wrapper layers a process-wide in-memory map of pools over the durable
store and treats database failures as soft: every database call sits in a
`try`/`catch` whose handler only logs.  The flag `dbWriteOk` models
whether a durable write call succeeds; a failed write is caught and the
computation continues.  `supabase` models whether the database client is
configured at all. -/

/-- In-memory position record of the frontend fallback map
(`{ yesShares, noShares, costBasis }`). -/
structure MemPosition where
  yesShares : Int
  noShares : Int
  costBasis : Int
deriving DecidableEq, Repr

/-- One entry of the process-wide `inMemoryPools` map. -/
structure InMemoryPool where
  pool : PoolState
  title : String
  positions : List (String × MemPosition)
deriving DecidableEq, Repr

/-- Combined state of the frontend wrapper: the in-memory map, the durable
store, and the two environment flags. -/
structure FrontState where
  mem : List (String × InMemoryPool)
  db : DbState
  supabase : Bool
  dbWriteOk : Bool
deriving DecidableEq, Repr

/-- `Map.get` on a string-keyed association list (the JS `Map`s of the
wrapper). -/
def assocFind {α : Type} (l : List (String × α)) (m : String) : Option α :=
  (l.find? (fun e => e.1 == m)).map (fun e => e.2)

/-- `Map.set` on a string-keyed association list: replace the entry in
place when the key exists, append it otherwise. -/
def assocSet {α : Type} (l : List (String × α)) (m : String) (v : α) :
    List (String × α) :=
  if (l.find? (fun e => e.1 == m)).isSome then
    l.map (fun e => if e.1 == m then (m, v) else e)
  else l ++ [(m, v)]

theorem assocFind_set_same {α : Type} (l : List (String × α)) (m : String) (v : α) :
    assocFind (assocSet l m v) m = some v := by
  unfold assocSet
  by_cases hs : (l.find? (fun e => e.1 == m)).isSome
  · rw [if_pos hs]
    unfold assocFind
    have hpred : (fun (e : String × α) => e.1 == m) ∘ (fun e => if e.1 == m then (m, v) else e)
        = fun e => e.1 == m := by
      funext e
      simp only [Function.comp]
      by_cases h : e.1 == m
      · rw [if_pos h]
        simpa using h
      · rw [if_neg h]
    rw [List.find?_map, hpred]
    cases hf : l.find? (fun e => e.1 == m) with
    | none => rw [hf] at hs; simp at hs
    | some e =>
      have he : e.1 = m := by simpa using List.find?_some hf
      simp [he]
  · rw [if_neg hs]
    unfold assocFind
    rw [List.find?_append, Option.not_isSome_iff_eq_none.mp hs]
    simp

theorem assocFind_set_ne {α : Type} (l : List (String × α)) (m m' : String) (v : α)
    (h : ¬(m' = m)) : assocFind (assocSet l m v) m' = assocFind l m' := by
  unfold assocSet
  by_cases hs : (l.find? (fun e => e.1 == m)).isSome
  · rw [if_pos hs]
    unfold assocFind
    have hpred : (fun (e : String × α) => e.1 == m') ∘ (fun e => if e.1 == m then (m, v) else e)
        = fun e => e.1 == m' := by
      funext e
      simp only [Function.comp]
      by_cases he : e.1 == m
      · rw [if_pos he, show e.1 = m from by simpa using he]
      · rw [if_neg he]
    rw [List.find?_map, hpred]
    cases hf : l.find? (fun e => e.1 == m') with
    | none => simp
    | some e =>
      have he1 : e.1 = m' := by simpa using List.find?_some hf
      have hne : ¬(e.1 = m) := by rw [he1]; exact h
      simp [hne]
  · rw [if_neg hs]
    unfold assocFind
    rw [List.find?_append]
    have hne : ¬(m = m') := fun hh => h hh.symm
    simp [hne]

theorem mem_assocSet {α : Type} {l : List (String × α)} {m : String} {v : α}
    {e : String × α} (h : e ∈ assocSet l m v) : e = (m, v) ∨ e ∈ l := by
  unfold assocSet at h
  by_cases hs : (l.find? (fun p => p.1 == m)).isSome
  · rw [if_pos hs] at h
    obtain ⟨x, hx, hfx⟩ := List.mem_map.mp h
    by_cases hk : x.1 == m
    · rw [if_pos hk] at hfx
      exact Or.inl hfx.symm
    · rw [if_neg hk] at hfx
      exact Or.inr (hfx ▸ hx)
  · rw [if_neg hs] at h
    rcases List.mem_append.mp h with h1 | h1
    · exact Or.inr h1
    · exact Or.inl (List.mem_singleton.mp h1)

theorem assocFind_mem {α : Type} {l : List (String × α)} {m : String} {v : α}
    (h : assocFind l m = some v) : ∃ e ∈ l, e.2 = v := by
  unfold assocFind at h
  cases hf : l.find? (fun e => e.1 == m) with
  | none => rw [hf] at h; simp at h
  | some e =>
    rw [hf] at h
    dsimp only [Option.map] at h
    injection h with h
    exact ⟨e, List.mem_of_find?_eq_some hf, h⟩

/-- `Map.get` on the in-memory pool map. -/
def memFind (mem : List (String × InMemoryPool)) (m : String) : Option InMemoryPool :=
  assocFind mem m

/-- `Map.set` on the in-memory pool map. -/
def memSet (mem : List (String × InMemoryPool)) (m : String) (v : InMemoryPool) :
    List (String × InMemoryPool) :=
  assocSet mem m v

/-- `Map.set` on a per-market positions map. -/
def posSet (l : List (String × MemPosition)) (u : String) (v : MemPosition) :
    List (String × MemPosition) :=
  assocSet l u v

/-- Modelled from the spec: `marketRowToPoolState` of the missing
`amm-repository.ts` — rebuild a `PoolState` from the row's reserve
columns (none of the verified claims depend on the collateral field of
this conversion). -/
def marketRowToPoolState (row : MarketRow) : PoolState :=
  { marketId := row.marketId,
    yesReserves := row.yesReserves,
    noReserves := row.noReserves,
    k := row.kInvariant,
    virtualLiquidity := row.yesReserves,
    totalCollateral := row.yesReserves + row.noReserves }

/-- `getPoolState` (helper, lines 280–307): in-memory map first; on a miss
load the row from the database — without consulting its `status` — and
populate the cache. -/
def getPoolStateF (s : FrontState) (m : String) : FrontState × Option PoolState :=
  match memFind s.mem m with
  | some entry => (s, some entry.pool)
  | none =>
    if s.supabase then
      match dbGetMarket s.db m with
      | some row =>
        let pool := marketRowToPoolState row
        ({ s with mem := memSet s.mem m { pool := pool, title := row.title, positions := [] } },
          some pool)
      | none => (s, none)
    else (s, none)

/-- `updatePoolState` (lines 309–329): the in-memory entry is overwritten
first; the durable write is then attempted and its failure is caught and
only logged, leaving the cache and the caller's success result intact. -/
def updatePoolStateF (s : FrontState) (m : String) (newPool : PoolState) : FrontState :=
  let memUpdated :=
    match memFind s.mem m with
    | some entry => memSet s.mem m { entry with pool := newPool }
    | none => s.mem
  let s1 := { s with mem := memUpdated }
  if s1.supabase && s1.dbWriteOk then
    { s1 with db := (dbUpdateMarketReserves s1.db m
        newPool.yesReserves newPool.noReserves newPool.k) }
  else s1

/-- `updateUserPosition` (lines 331–366): add `shares` to the chosen side
of the in-memory position, then read-and-add the database position row;
`costBasis` is initialized to zero and never touched. -/
def updateUserPositionF (s : FrontState) (m u : String) (o : Outcome)
    (shares : Int) (price : Rat) : FrontState :=
  let memUpdated :=
    match memFind s.mem m with
    | some entry =>
      let pos := ((entry.positions.find? (fun e => e.1 == u)).map (fun e => e.2)).getD
        { yesShares := 0, noShares := 0, costBasis := 0 }
      let newPos :=
        match o with
        | .YES => { pos with yesShares := pos.yesShares + shares }
        | .NO => { pos with noShares := pos.noShares + shares }
      memSet s.mem m { entry with positions := posSet entry.positions u newPos }
    | none => s.mem
  let s1 := { s with mem := memUpdated }
  if s1.supabase && s1.dbWriteOk then
    let existingShares := ((dbGetPosition s1.db u m o).map (fun r => r.shares)).getD 0
    { s1 with db := dbUpsertPosition s1.db u m o (existingShares + shares) price }
  else s1

/-- `createMarketPersistent` (lines 65–116): create the engine pool, try
to insert the database row (failure falls through), and always store the
pool in the in-memory map. -/
def createMarketPersistent (s : FrontState) (m title : String) (initialLiquidity : Int) :
    FrontState × Except AmmError PoolState :=
  match createPool m initialLiquidity with
  | .error e => (s, .error e)
  | .ok pool =>
    let dbSaved := if s.supabase && s.dbWriteOk then (createMarketDB s.db m title initialLiquidity).1
                   else s.db
    let mem1 := memSet s.mem m { pool := pool, title := title, positions := [] }
    ({ s with db := dbSaved, mem := mem1 }, .ok pool)

/-- `placeBetPersistent` (lines 190–208): load the pool (no status check),
run the engine, write the pool state, update the user position. -/
def placeBetPersistent (s : FrontState) (m u : String) (amount : Int) (o : Outcome) :
    FrontState × Except AmmError BetResult :=
  match getPoolStateF s m with
  | (s1, none) => (s1, .error .NotFound)
  | (s1, some pool) =>
    match placeBet pool amount o with
    | .error e => (s1, .error e)
    | .ok res =>
      let s2 := updatePoolStateF s1 m res.newPoolState
      let s3 := updateUserPositionF s2 m u o res.totalShares res.effectivePrice
      (s3, .ok res)

/-- `sellPositionPersistent` (lines 213–231): load the pool (no status
check, no ownership check), run the engine, write the pool state — and do
not touch any position. -/
def sellPositionPersistent (s : FrontState) (m u : String) (amount : Int) (o : Outcome) :
    FrontState × Except AmmError SellResult :=
  match getPoolStateF s m with
  | (s1, none) => (s1, .error .NotFound)
  | (s1, some pool) =>
    match sellPosition pool amount o with
    | .error e => (s1, .error e)
    | .ok res => (updatePoolStateF s1 m res.newPoolState, .ok res)

/-- In-memory fallback of `getPositionPersistent`. -/
def memPositionView (s : FrontState) (m u : String) : Option PositionView :=
  match memFind s.mem m with
  | none => none
  | some entry =>
    match (entry.positions.find? (fun e => e.1 == u)).map (fun e => e.2) with
    | none => none
    | some pos =>
      some { yesShares := pos.yesShares, noShares := pos.noShares, costBasis := pos.costBasis }

/-- `getPositionPersistent` (lines 236–274): database rows first (with
`costBasis` hard-coded to zero), in-memory fallback otherwise. -/
def getPositionPersistent (s : FrontState) (m u : String) : Option PositionView :=
  if s.supabase then
    match dbGetPosition s.db u m .YES, dbGetPosition s.db u m .NO with
    | none, none => memPositionView s m u
    | yesPos, noPos =>
      some { yesShares := (yesPos.map (fun r => r.shares)).getD 0,
             noShares := (noPos.map (fun r => r.shares)).getD 0,
             costBasis := 0 }
  else memPositionView s m u

/-- The market record reported by `getMarketsPersistent`, restricted to
the reported fields the claims are about. -/
structure MarketData where
  marketId : String
  status : MarketStatus
  yesReserves : Int
  noReserves : Int
  totalCollateral : Int
  kInvariant : Int
  prices : PoolPrices
deriving DecidableEq, Repr

/-- `getMarketsPersistent` (lines 121–171): database markets first, where
the reported `totalCollateral` is computed as
`BigInt(row.yes_reserves) + BigInt(row.no_reserves)`; in-memory markets
not already listed are appended with the engine pool's own cumulative
`totalCollateral`. -/
def getMarketsPersistent (s : FrontState) : List MarketData :=
  let dbList : List MarketData :=
    if s.supabase then
      (s.db.markets.filter (fun row => row.status == MarketStatus.ACTIVE)).map (fun row =>
        { marketId := row.marketId, status := row.status,
          yesReserves := row.yesReserves, noReserves := row.noReserves,
          totalCollateral := row.yesReserves + row.noReserves,
          kInvariant := row.kInvariant,
          prices := pricesOf row.yesReserves row.noReserves })
    else []
  let memList : List MarketData :=
    (s.mem.filter (fun e => !(dbList.any (fun md => md.marketId == e.1)))).map (fun e =>
      { marketId := e.1, status := .ACTIVE,
        yesReserves := e.2.pool.yesReserves, noReserves := e.2.pool.noReserves,
        totalCollateral := e.2.pool.totalCollateral,
        kInvariant := e.2.pool.k,
        prices := getPrices e.2.pool })
  dbList ++ memList

theorem getPoolStateF_memhit {s : FrontState} {m : String} {entry : InMemoryPool}
    (h : memFind s.mem m = some entry) : getPoolStateF s m = (s, some entry.pool) := by
  unfold getPoolStateF
  rw [h]

theorem updatePoolStateF_flags (s : FrontState) (m : String) (np : PoolState) :
    (updatePoolStateF s m np).supabase = s.supabase ∧
    (updatePoolStateF s m np).dbWriteOk = s.dbWriteOk := by
  unfold updatePoolStateF
  split <;> (dsimp only; split <;> exact ⟨rfl, rfl⟩)

theorem updatePoolStateF_db_noWrite {s : FrontState} (m : String) (np : PoolState)
    (h : (s.supabase && s.dbWriteOk) = false) : (updatePoolStateF s m np).db = s.db := by
  unfold updatePoolStateF
  split <;> (dsimp only; split)
  · rename_i hc
    exact absurd (show (s.supabase && s.dbWriteOk) = true from hc) (by simp [h])
  · rfl
  · rename_i hc
    exact absurd (show (s.supabase && s.dbWriteOk) = true from hc) (by simp [h])
  · rfl

theorem updateUserPositionF_db_noWrite {s : FrontState} (m u : String) (o : Outcome)
    (sh : Int) (pr : Rat) (h : (s.supabase && s.dbWriteOk) = false) :
    (updateUserPositionF s m u o sh pr).db = s.db := by
  unfold updateUserPositionF
  split <;> (dsimp only; split)
  · rename_i hc
    exact absurd (show (s.supabase && s.dbWriteOk) = true from hc) (by simp [h])
  · rfl
  · rename_i hc
    exact absurd (show (s.supabase && s.dbWriteOk) = true from hc) (by simp [h])
  · rfl

theorem updateUserPositionF_flags (s : FrontState) (m u : String) (o : Outcome)
    (sh : Int) (pr : Rat) :
    (updateUserPositionF s m u o sh pr).supabase = s.supabase ∧
    (updateUserPositionF s m u o sh pr).dbWriteOk = s.dbWriteOk := by
  unfold updateUserPositionF
  split <;> (dsimp only; split <;> exact ⟨rfl, rfl⟩)

theorem updatePoolStateF_memFind_same {s : FrontState} {m : String} {entry : InMemoryPool}
    (np : PoolState) (h : memFind s.mem m = some entry) :
    memFind (updatePoolStateF s m np).mem m = some { entry with pool := np } := by
  unfold updatePoolStateF
  rw [h]
  dsimp only
  split
  · exact assocFind_set_same _ _ _
  · exact assocFind_set_same _ _ _

theorem updateUserPositionF_pool (s : FrontState) (m u : String) (o : Outcome)
    (sh : Int) (pr : Rat) (m' : String) :
    (memFind (updateUserPositionF s m u o sh pr).mem m').map (fun e => e.pool)
      = (memFind s.mem m').map (fun e => e.pool) := by
  unfold updateUserPositionF
  cases hf : memFind s.mem m with
  | none =>
    dsimp only
    split <;> rfl
  | some entry =>
    dsimp only
    split
    · rename_i hc
      by_cases hm : m' = m
      · subst hm
        unfold memFind memSet
        rw [assocFind_set_same]
        unfold memFind at hf
        rw [hf]
        rfl
      · unfold memFind memSet
        rw [assocFind_set_ne _ _ _ _ hm]
    · by_cases hm : m' = m
      · subst hm
        unfold memFind memSet
        rw [assocFind_set_same]
        unfold memFind at hf
        rw [hf]
        rfl
      · unfold memFind memSet
        rw [assocFind_set_ne _ _ _ _ hm]

/-- C3 (amended): when the database client is configured but the durable
write fails, a bet whose engine step succeeds is still reported as
successful, the in-memory cache is updated to the post-trade pool before
the durable write is attempted, and the database is left unchanged — the
write failure is caught and logged, never surfaced to the caller. -/
theorem placeBet_write_failure_behavior (s : FrontState) (m u : String) (a : Int)
    (o : Outcome) (entry : InMemoryPool) (res : BetResult)
    (hsup : s.supabase = true) (hfail : s.dbWriteOk = false)
    (hmem : memFind s.mem m = some entry)
    (heng : placeBet entry.pool a o = .ok res) :
    (placeBetPersistent s m u a o).2 = .ok res ∧
    ((placeBetPersistent s m u a o).1).db = s.db ∧
    (memFind ((placeBetPersistent s m u a o).1).mem m).map (fun e => e.pool)
        = some res.newPoolState := by
  have hflag : (s.supabase && s.dbWriteOk) = false := by simp [hsup, hfail]
  have hrun : placeBetPersistent s m u a o
      = (updateUserPositionF (updatePoolStateF s m res.newPoolState) m u o
          res.totalShares res.effectivePrice, .ok res) := by
    unfold placeBetPersistent
    rw [getPoolStateF_memhit hmem]
    dsimp only
    rw [heng]
  rw [hrun]
  refine ⟨rfl, ?_, ?_⟩
  · have h1 := updatePoolStateF_flags s m res.newPoolState
    have h2 : ((updatePoolStateF s m res.newPoolState).supabase
        && (updatePoolStateF s m res.newPoolState).dbWriteOk) = false := by
      rw [h1.1, h1.2]; exact hflag
    rw [updateUserPositionF_db_noWrite _ _ _ _ _ h2]
    exact updatePoolStateF_db_noWrite _ _ hflag
  · rw [updateUserPositionF_pool]
    rw [updatePoolStateF_memFind_same res.newPoolState hmem]
    rfl

/-- Scenario for the durable-write-failure claim: one market, cached in
memory and present in the database, with the database write set to
fail. -/
def writeFailEntry : InMemoryPool :=
  { pool := { marketId := "m", yesReserves := 10, noReserves := 10, k := 100,
              virtualLiquidity := 10, totalCollateral := 20 },
    title := "t", positions := [] }

def writeFailState : FrontState :=
  { mem := [("m", writeFailEntry)],
    db := { markets := [{ marketId := "m", title := "t", status := .ACTIVE,
                          resolutionValue := none, yesReserves := 10, noReserves := 10,
                          kInvariant := 100 }],
            positions := [] },
    supabase := true,
    dbWriteOk := false }

def writeFailRes : BetResult :=
  { newPoolState := { marketId := "m", yesReserves := 6, noReserves := 15, k := 90,
                      virtualLiquidity := 10, totalCollateral := 25 },
    totalShares := 4, effectivePrice := 5 / 4 }

/-- C3 (counterexample): a bet of 5 against the 10/10 pool while the
durable write fails.  The call reports success, the in-memory cache holds
the post-trade reserves (6, 15), and the database row still holds the
stale pre-trade reserves (10, 10) — a partial write, with no failure
surfaced. -/
theorem placeBet_write_failure_partial :
    (placeBetPersistent writeFailState "m" "u" 5 .YES).2 = .ok writeFailRes ∧
    (memFind ((placeBetPersistent writeFailState "m" "u" 5 .YES).1).mem "m").map
        (fun e => (e.pool.yesReserves, e.pool.noReserves)) = some (6, 15) ∧
    (dbGetMarket ((placeBetPersistent writeFailState "m" "u" 5 .YES).1).db "m").map
        (fun row => (row.yesReserves, row.noReserves)) = some (10, 10) := by
  refine ⟨rfl, rfl, rfl⟩

/-- Witness for the amended C3 at the same concrete input. -/
theorem placeBet_write_failure_behavior_witness :
    (placeBetPersistent writeFailState "m" "u" 5 .YES).2 = .ok writeFailRes ∧
    ((placeBetPersistent writeFailState "m" "u" 5 .YES).1).db = writeFailState.db ∧
    (memFind ((placeBetPersistent writeFailState "m" "u" 5 .YES).1).mem "m").map
        (fun e => e.pool) = some writeFailRes.newPoolState :=
  placeBet_write_failure_behavior writeFailState "m" "u" 5 .YES writeFailEntry
    writeFailRes rfl rfl rfl rfl

theorem commitReserves_sum (p : PoolState) (o : Outcome) (c r : Int) :
    (commitReserves p o c r).yesReserves + (commitReserves p o c r).noReserves = c + r := by
  cases o
  · rfl
  · exact Int.add_comm r c

theorem reservesFor_sum (p : PoolState) (o : Outcome) :
    reservesFor p o + reservesFor p o.other = p.yesReserves + p.noReserves := by
  cases o
  · rfl
  · exact Int.add_comm p.noReserves p.yesReserves

theorem pricesOf_symmetric {L : Int} (hL : 0 < L) :
    (pricesOf L L).yesProbability = 50 ∧ (pricesOf L L).noProbability = 50 := by
  have htot : (0 : Int) < L + L := by omega
  have hL0 : (0 : Rat) < (L : Rat) := by exact_mod_cast hL
  have hval : ((L : Rat)) / (((L + L : Int) : Rat)) = 1 / 2 := by
    push_cast
    rw [div_eq_div_iff (by linarith) (by norm_num)]
    ring
  unfold pricesOf
  dsimp only
  rw [if_pos htot, hval]
  constructor
  · have h50 : ((1 : Rat) / 2) * 100 = ((50 : Int) : Rat) := by norm_num
    rw [h50, round_intCast]
  · have h50 : (1 - (1 : Rat) / 2) * 100 = ((50 : Int) : Rat) := by norm_num
    rw [h50, round_intCast]

/-- C4 (amended): `createPool(m, L)` seeds `yesReserves = noReserves = L`,
`k = L²`, `totalCollateral = 2L`, and both reported probabilities are
exactly 50.  However the `totalCollateral` subsequently *reported* for
database-backed markets is the current reserve sum
(`yes_reserves + no_reserves`, see `getMarketsPersistent`), which drops
strictly below the cumulative collateral after any successful bet. -/
theorem createPool_symmetric_and_collateral :
    (∀ (m : String) (L : Int) (p : PoolState), createPool m L = .ok p →
        p.yesReserves = L ∧ p.noReserves = L ∧ p.k = L * L ∧
        p.totalCollateral = 2 * L ∧
        (getPrices p).yesProbability = 50 ∧ (getPrices p).noProbability = 50) ∧
    (∀ (p : PoolState) (x : Int) (o : Outcome) (res : BetResult),
        placeBet p x o = .ok res →
        p.totalCollateral = p.yesReserves + p.noReserves →
        res.newPoolState.yesReserves + res.newPoolState.noReserves
          < res.newPoolState.totalCollateral) := by
  constructor
  · intro m L p hc
    unfold createPool at hc
    split at hc
    · simp at hc
    · rename_i hL
      simp only [Except.ok.injEq] at hc
      subst hc
      refine ⟨rfl, rfl, rfl, rfl, ?_⟩
      exact @pricesOf_symmetric L (by omega)
  · intro p x o res hb htc
    obtain ⟨hx, hs, hlt, -, hpool⟩ := placeBet_ok_facts hb
    rw [hpool]
    have hsum := commitReserves_sum p o (reservesFor p o - res.totalShares)
      (reservesFor p o.other + x)
    have hres := reservesFor_sum p o
    show (commitReserves p o _ _).yesReserves + (commitReserves p o _ _).noReserves
        < p.totalCollateral + x
    rw [hsum]
    linarith

/-- The reporting scenario: a fresh market with 10 USDC of liquidity, then
one 1 USDC YES bet, both through the frontend wrapper with a working
database. -/
def reportState : FrontState :=
  (placeBetPersistent
    ((createMarketPersistent
        { mem := [], db := { markets := [], positions := [] },
          supabase := true, dbWriteOk := true }
        "m" "t" 10000000).1)
    "m" "u" 1000000 .YES).1

/-- C4 (counterexample): after the bet, `getMarketsPersistent` reports
`totalCollateral = 20 090 909` (the post-trade reserve sum) while the
cumulative collateral of the pool — seeded 20 000 000 plus the 1 000 000
taken in — is 21 000 000, as the engine pool in the cache records. -/
theorem getMarkets_reports_reserve_sum :
    (getMarketsPersistent reportState).map (fun md => md.totalCollateral) = [20090909] ∧
    (memFind reportState.mem "m").map (fun e => e.pool.totalCollateral) = some 21000000 ∧
    (20090909 : Int) ≠ 21000000 := by
  refine ⟨rfl, rfl, by norm_num⟩

/-- Concrete pool and bet for the C4 witness. -/
def symPool : PoolState :=
  { marketId := "m", yesReserves := 10, noReserves := 10, k := 100,
    virtualLiquidity := 10, totalCollateral := 20 }

def symBet : BetResult :=
  { newPoolState := { marketId := "m", yesReserves := 6, noReserves := 15, k := 90,
                      virtualLiquidity := 10, totalCollateral := 25 },
    totalShares := 4, effectivePrice := 5 / 4 }

/-- Witness for the amended C4 at `L = 10` and a bet of 5. -/
theorem createPool_symmetric_and_collateral_witness :
    (symPool.yesReserves = 10 ∧ symPool.noReserves = 10 ∧ symPool.k = 10 * 10 ∧
     symPool.totalCollateral = 2 * 10 ∧
     (getPrices symPool).yesProbability = 50 ∧ (getPrices symPool).noProbability = 50) ∧
    (symBet.newPoolState.yesReserves + symBet.newPoolState.noReserves
      < symBet.newPoolState.totalCollateral) :=
  ⟨createPool_symmetric_and_collateral.1 "m" 10 symPool rfl,
   createPool_symmetric_and_collateral.2 symPool 5 .YES symBet rfl rfl⟩

/-- C5 (amended): only the backend path checks ownership.  `sellPositionDB`
rejects a sell exceeding the held shares with an insufficient-shares error
and leaves the store untouched, and rejects a sell with no position row at
all with a no-position error; the frontend `sellPositionPersistent`
performs no ownership check (see the counterexample). -/
theorem sellPositionDB_oversell_rejected :
    (∀ (db : DbState) (m u : String) (amt : Int) (o : Outcome)
        (row : MarketRow) (pos : PositionRow),
        dbGetMarket db m = some row → row.status = .ACTIVE →
        dbGetPosition db u m o = some pos → pos.shares < amt →
        sellPositionDB db m u amt o = (db, .error .InsufficientLiquidity)) ∧
    (∀ (db : DbState) (m u : String) (amt : Int) (o : Outcome) (row : MarketRow),
        dbGetMarket db m = some row → row.status = .ACTIVE →
        dbGetPosition db u m o = none →
        sellPositionDB db m u amt o = (db, .error .NoPosition)) := by
  constructor
  · intro db m u amt o row pos hm hact hp hlt
    unfold sellPositionDB
    rw [hm]
    dsimp only
    rw [hp]
    dsimp only
    rw [if_neg (by simp [hact]), if_pos hlt]
  · intro db m u amt o row hm hact hp
    unfold sellPositionDB
    rw [hm]
    dsimp only
    rw [hp]
    dsimp only
    rw [if_neg (by simp [hact])]

/-- One market cached in memory with a 10/10 pool and no positions at
all; the database is not configured. -/
def oversellState : FrontState :=
  { mem := [("m", { pool := { marketId := "m", yesReserves := 10, noReserves := 10,
                              k := 100, virtualLiquidity := 10, totalCollateral := 20 },
                    title := "t", positions := [] })],
    db := { markets := [], positions := [] },
    supabase := false,
    dbWriteOk := true }

/-- C5 (counterexample): the user holds no shares at all, yet selling 4
YES shares through the frontend path succeeds, pays out 3 micro-USDC and
moves the pool — no InsufficientLiquidity error and no unchanged state. -/
theorem sellPositionPersistent_no_ownership_check :
    getPositionPersistent oversellState "m" "u" = none ∧
    (sellPositionPersistent oversellState "m" "u" 4 .YES).2
      = .ok { newPoolState := { marketId := "m", yesReserves := 14, noReserves := 7,
                                k := 98, virtualLiquidity := 10, totalCollateral := 17 },
              usdcOut := 3 } ∧
    (memFind ((sellPositionPersistent oversellState "m" "u" 4 .YES).1).mem "m").map
        (fun e => (e.pool.yesReserves, e.pool.noReserves))
      = some (14, 7) := by
  refine ⟨rfl, rfl, rfl⟩

/-- The backend store for the C5 witness: an active market and a position
of 5 YES shares. -/
def oversellDb : DbState :=
  { markets := [{ marketId := "m", title := "t", status := .ACTIVE,
                  resolutionValue := none, yesReserves := 10, noReserves := 10,
                  kInvariant := 100 }],
    positions := [{ userId := "u", marketId := "m", outcome := .YES,
                    shares := 5, averageEntryPrice := 1 / 2 }] }

/-- Witness for the amended C5: selling 9 > 5 held shares is rejected with
the store unchanged. -/
theorem sellPositionDB_oversell_rejected_witness :
    sellPositionDB oversellDb "m" "u" 9 .YES
      = (oversellDb, .error .InsufficientLiquidity) :=
  sellPositionDB_oversell_rejected.1 oversellDb "m" "u" 9 .YES
    { marketId := "m", title := "t", status := .ACTIVE, resolutionValue := none,
      yesReserves := 10, noReserves := 10, kInvariant := 100 }
    { userId := "u", marketId := "m", outcome := .YES, shares := 5,
      averageEntryPrice := 1 / 2 }
    rfl rfl rfl (by norm_num)

/-- C6 (amended): only the backend path enforces the market status.
`placeBetDB` and `sellPositionDB` reject any trade against a non-ACTIVE
market with a market-not-active error and change nothing; the frontend
persistent path loads the pool without consulting the status (see the
counterexample). -/
theorem db_trades_reject_not_active :
    (∀ (db : DbState) (m u : String) (amt : Int) (o : Outcome) (row : MarketRow),
        dbGetMarket db m = some row → row.status ≠ .ACTIVE →
        placeBetDB db m u amt o = (db, .error .MarketNotActive)) ∧
    (∀ (db : DbState) (m u : String) (amt : Int) (o : Outcome) (row : MarketRow),
        dbGetMarket db m = some row → row.status ≠ .ACTIVE →
        sellPositionDB db m u amt o = (db, .error .MarketNotActive)) := by
  constructor
  · intro db m u amt o row hm hact
    unfold placeBetDB
    rw [hm]
    dsimp only
    rw [if_pos hact]
  · intro db m u amt o row hm hact
    unfold sellPositionDB
    rw [hm]
    dsimp only
    rw [if_pos hact]

/-- A RESOLVED market present only in the database. -/
def resolvedState : FrontState :=
  { mem := [],
    db := { markets := [{ marketId := "m", title := "t", status := .RESOLVED,
                          resolutionValue := some .YES, yesReserves := 10, noReserves := 10,
                          kInvariant := 100 }],
            positions := [] },
    supabase := true,
    dbWriteOk := true }

/-- C6 (counterexample): a bet against the RESOLVED market goes through
the frontend path: the engine runs, the call reports success, and the
database row — still RESOLVED — now carries the post-trade reserves. -/
theorem placeBetPersistent_ignores_status :
    (placeBetPersistent resolvedState "m" "u" 5 .YES).2
      = .ok { newPoolState := { marketId := "m", yesReserves := 6, noReserves := 15,
                                k := 90, virtualLiquidity := 10, totalCollateral := 25 },
              totalShares := 4, effectivePrice := 5 / 4 } ∧
    dbGetMarket ((placeBetPersistent resolvedState "m" "u" 5 .YES).1).db "m"
      = some { marketId := "m", title := "t", status := .RESOLVED,
               resolutionValue := some .YES, yesReserves := 6, noReserves := 15,
               kInvariant := 90 } := by
  refine ⟨rfl, rfl⟩

/-- A CANCELLED market in the backend store, for the C6 witness. -/
def cancelledDb : DbState :=
  { markets := [{ marketId := "m", title := "t", status := .CANCELLED,
                  resolutionValue := none, yesReserves := 10, noReserves := 10,
                  kInvariant := 100 }],
    positions := [] }

/-- Witness for the amended C6: the backend rejects a bet on a CANCELLED
market with the store unchanged. -/
theorem db_trades_reject_not_active_witness :
    placeBetDB cancelledDb "m" "u" 5 .YES = (cancelledDb, .error .MarketNotActive) :=
  db_trades_reject_not_active.1 cancelledDb "m" "u" 5 .YES
    { marketId := "m", title := "t", status := .CANCELLED, resolutionValue := none,
      yesReserves := 10, noReserves := 10, kInvariant := 100 }
    rfl (by simp)

/-! ## HTTP route layer (`src/frontend/app/api/amm/bet/route.ts`) -/

/-- A JSON request body for the bet route: each field either absent or a
string (the spec sends monetary values as base-10 integer strings). -/
structure TradeBody where
  marketId : Option String
  userId : Option String
  amount : Option String
  outcome : Option String
deriving DecidableEq, Repr

/-- JavaScript truthiness of an optional string field: absent fields and
the empty string are falsy (`!marketId || !userId || !amount`). -/
def jsTruthy : Option String → Bool
  | none => false
  | some t => !(t == "")

/-- Decimal-digit accumulator for `parseBigInt`. -/
def parseDigits : List Char → Nat → Option Nat
  | [], acc => some acc
  | c :: rest, acc =>
    if c.isDigit then parseDigits rest (acc * 10 + (c.toNat - 48)) else none

/-- `BigInt(string)` on decimal strings: the empty string is `0`, an
optional leading minus sign is allowed, any non-digit throws (`none`). -/
def parseBigInt (t : String) : Option Int :=
  match t.data with
  | [] => some 0
  | c :: rest =>
    if c = Char.ofNat 45 then
      if rest = [] then none else (parseDigits rest 0).map (fun n => -(n : Int))
    else (parseDigits (c :: rest) 0).map (fun n => (n : Int))

/-- The outcome coercion of `bet/route.ts` line 23:
`outcome === 'YES' ? Outcome.YES : Outcome.NO` — any other value,
malformed or not, becomes NO. -/
def parseOutcomeRoute (s : String) : Outcome :=
  if s == "YES" then .YES else .NO

/-- A route response: 400 for missing parameters, 500 for a caught
exception (including engine errors), 200 with the share count
otherwise. -/
inductive RouteReply where
  | badRequest
  | serverError
  | ok (shares : Int)
deriving DecidableEq, Repr

/-- `POST /api/amm/bet` (`bet/route.ts` 11–44): missing-field validation,
outcome coercion, `BigInt(amount)` parse, then the persistent manager;
every thrown error is caught and mapped to a 500 reply. -/
def betRoutePOST (s : FrontState) (body : TradeBody) : FrontState × RouteReply :=
  if !(jsTruthy body.marketId) || !(jsTruthy body.userId) || !(jsTruthy body.amount)
      || body.outcome == none then
    (s, .badRequest)
  else
    match parseBigInt (body.amount.getD "") with
    | none => (s, .serverError)
    | some amt =>
      let o := parseOutcomeRoute (body.outcome.getD "")
      match placeBetPersistent s (body.marketId.getD "") (body.userId.getD "") amt o with
      | (s1, .ok res) => (s1, .ok res.totalShares)
      | (s1, .error _) => (s1, .serverError)

/-- C7 (amended): the route rejects only missing or empty fields before
touching any state; a malformed outcome is never rejected but silently
coerced to NO; and a zero amount passes route validation, reaches the
persistent manager — which reads and caches the market state — and is
rejected only there, surfacing as a 500, not as a pre-state-read
InvalidArgument. -/
theorem betRoute_validation_behavior :
    (∀ (s : FrontState) (body : TradeBody),
        (jsTruthy body.marketId = false ∨ jsTruthy body.userId = false ∨
         jsTruthy body.amount = false ∨ body.outcome = none) →
        betRoutePOST s body = (s, .badRequest)) ∧
    (∀ t : String, ¬(t = "YES") → parseOutcomeRoute t = .NO) ∧
    (betRoutePOST resolvedState
        { marketId := some "m", userId := some "u", amount := some "0",
          outcome := some "YES" }
      = ({ resolvedState with
            mem := [("m", { pool := { marketId := "m", yesReserves := 10, noReserves := 10,
                                      k := 100, virtualLiquidity := 10, totalCollateral := 20 },
                            title := "t", positions := [] })] },
          .serverError)) := by
  refine ⟨?_, ?_, by decide⟩
  · intro s body h
    unfold betRoutePOST
    rw [if_pos]
    rcases h with h | h | h | h
    · simp [h]
    · simp [h]
    · simp [h]
    · simp [h]
  · intro t ht
    unfold parseOutcomeRoute
    rw [if_neg (by simpa using ht)]

/-- One market cached in memory, database unconfigured: the state for the
outcome-coercion counterexample. -/
def coerceState : FrontState :=
  { mem := [("m", { pool := { marketId := "m", yesReserves := 10, noReserves := 10,
                              k := 100, virtualLiquidity := 10, totalCollateral := 20 },
                    title := "t", positions := [] })],
    db := { markets := [], positions := [] },
    supabase := false,
    dbWriteOk := true }

/-- C7 (counterexample): a request whose outcome field is the malformed
string `"MAYBE"` is not rejected with InvalidArgument: the route silently
coerces it to NO, the bet executes on the NO side, and the call returns
the minted shares. -/
theorem betRoute_coerces_malformed_outcome :
    (betRoutePOST coerceState
        { marketId := some "m", userId := some "u", amount := some "5",
          outcome := some "MAYBE" }).2 = .ok 4 ∧
    (memFind ((betRoutePOST coerceState
        { marketId := some "m", userId := some "u", amount := some "5",
          outcome := some "MAYBE" }).1).mem "m").map
        (fun e => (e.pool.yesReserves, e.pool.noReserves)) = some (15, 6) := by
  refine ⟨rfl, rfl⟩

/-- Witness for the amended C7: a missing amount is rejected with no state
change, and `"MAYBE"` parses to NO. -/
theorem betRoute_validation_behavior_witness :
    betRoutePOST coerceState
        { marketId := some "m", userId := some "u", amount := none,
          outcome := some "YES" }
      = (coerceState, .badRequest) ∧
    parseOutcomeRoute "MAYBE" = .NO :=
  ⟨betRoute_validation_behavior.1 coerceState
      { marketId := some "m", userId := some "u", amount := none,
        outcome := some "YES" }
      (Or.inr (Or.inr (Or.inl rfl))),
   betRoute_validation_behavior.2.1 "MAYBE" (by decide)⟩

theorem memFind_set_same (l : List (String × InMemoryPool)) (m : String) (v : InMemoryPool) :
    memFind (memSet l m v) m = some v :=
  assocFind_set_same l m v

theorem memFind_set_ne (l : List (String × InMemoryPool)) (m m' : String) (v : InMemoryPool)
    (h : ¬(m' = m)) : memFind (memSet l m v) m' = memFind l m' :=
  assocFind_set_ne l m m' v h

theorem getPoolStateF_positions (s : FrontState) (m m' u' : String) :
    ((getPoolStateF s m).1).db = s.db ∧
    memPositionView (getPoolStateF s m).1 m' u' = memPositionView s m' u' := by
  unfold getPoolStateF
  cases hf : memFind s.mem m with
  | some entry => exact ⟨rfl, rfl⟩
  | none =>
    dsimp only
    split
    · cases hg : dbGetMarket s.db m with
      | some row =>
        dsimp only
        refine ⟨rfl, ?_⟩
        unfold memPositionView
        by_cases hm : m' = m
        · subst hm
          rw [show (memFind (memSet s.mem m'
                { pool := marketRowToPoolState row, title := row.title, positions := [] }) m')
              = some { pool := marketRowToPoolState row, title := row.title, positions := [] }
            from memFind_set_same _ _ _]
          rw [hf]
          rfl
        · rw [show (memFind (memSet s.mem m
                { pool := marketRowToPoolState row, title := row.title, positions := [] }) m')
              = memFind s.mem m'
            from memFind_set_ne _ _ _ _ hm]
      | none => exact ⟨rfl, rfl⟩
    · exact ⟨rfl, rfl⟩

theorem updatePoolStateF_positions (s : FrontState) (m : String) (np : PoolState)
    (m' u' : String) :
    (updatePoolStateF s m np).db.positions = s.db.positions ∧
    memPositionView (updatePoolStateF s m np) m' u' = memPositionView s m' u' := by
  unfold updatePoolStateF
  cases hf : memFind s.mem m with
  | none =>
    dsimp only
    split
    · exact ⟨rfl, rfl⟩
    · exact ⟨rfl, rfl⟩
  | some entry =>
    dsimp only
    split
    all_goals refine ⟨rfl, ?_⟩
    all_goals unfold memPositionView
    all_goals by_cases hm : m' = m
    · subst hm
      rw [show memFind (memSet s.mem m' { entry with pool := np }) m'
            = some { entry with pool := np } from memFind_set_same _ _ _, hf]
    · rw [show memFind (memSet s.mem m { entry with pool := np }) m'
            = memFind s.mem m' from memFind_set_ne _ _ _ _ hm]
    · subst hm
      rw [show memFind (memSet s.mem m' { entry with pool := np }) m'
            = some { entry with pool := np } from memFind_set_same _ _ _, hf]
    · rw [show memFind (memSet s.mem m { entry with pool := np }) m'
            = memFind s.mem m' from memFind_set_ne _ _ _ _ hm]

theorem sellPositionPersistent_positions_unchanged (s : FrontState) (m u : String)
    (a : Int) (o : Outcome) (m' u' : String) :
    (((sellPositionPersistent s m u a o).1).db.positions = s.db.positions) ∧
    memPositionView (sellPositionPersistent s m u a o).1 m' u' = memPositionView s m' u' := by
  unfold sellPositionPersistent
  have hdb1 : ((getPoolStateF s m).1).db = s.db := (getPoolStateF_positions s m m' u').1
  have hpv1 : memPositionView (getPoolStateF s m).1 m' u' = memPositionView s m' u' :=
    (getPoolStateF_positions s m m' u').2
  cases hg : getPoolStateF s m with
  | mk s1 popt =>
    rw [hg] at hdb1 hpv1
    cases popt with
    | none => exact ⟨by rw [hdb1], hpv1⟩
    | some pool =>
      dsimp only
      cases hs : sellPosition pool a o with
      | error e => exact ⟨by rw [hdb1], hpv1⟩
      | ok res =>
        dsimp only
        have h2 := updatePoolStateF_positions s1 m res.newPoolState m' u'
        exact ⟨by rw [h2.1, hdb1], by rw [h2.2, hpv1]⟩

/-- C8 (amended): the backend paths update positions exactly — a bet adds
precisely the minted shares to the (user, market, outcome) row and a sell
subtracts precisely the shares sold, never driving the count negative —
but the frontend `sellPositionPersistent` leaves every position, in memory
and in the database, completely untouched. -/
theorem positions_updated_exactly :
    (∀ (db db' : DbState) (m u : String) (amt : Int) (o : Outcome) (res : BetResult),
        placeBetDB db m u amt o = (db', .ok res) →
        (dbGetPosition db' u m o).map (fun r => r.shares)
          = some ((((dbGetPosition db u m o).map (fun r => r.shares)).getD 0)
              + res.totalShares)) ∧
    (∀ (db db' : DbState) (m u : String) (amt : Int) (o : Outcome) (res : SellResult)
        (pos : PositionRow),
        dbGetPosition db u m o = some pos →
        sellPositionDB db m u amt o = (db', .ok res) →
        (dbGetPosition db' u m o).map (fun r => r.shares) = some (pos.shares - amt)
          ∧ 0 ≤ pos.shares - amt) ∧
    (∀ (s : FrontState) (m u : String) (a : Int) (o : Outcome) (m' u' : String),
        (((sellPositionPersistent s m u a o).1).db.positions = s.db.positions) ∧
        memPositionView (sellPositionPersistent s m u a o).1 m' u'
          = memPositionView s m' u') :=
  ⟨fun _ _ _ _ _ _ _ h => placeBetDB_position_exact h,
   fun _ _ _ _ _ _ _ _ hp h => sellPositionDB_position_exact hp h,
   fun s m u a o m' u' => sellPositionPersistent_positions_unchanged s m u a o m' u'⟩

/-- The buy-then-sell scenario for C8, entirely in memory: 10 USDC of
liquidity, a 1 USDC YES bet by `u`, then `u` sells all 909 091 shares. -/
def c8AfterBuy : FrontState :=
  (placeBetPersistent
    ((createMarketPersistent
        { mem := [], db := { markets := [], positions := [] },
          supabase := false, dbWriteOk := true }
        "m" "t" 10000000).1)
    "m" "u" 1000000 .YES).1

/-- C8 (counterexample): after buying 909 091 YES shares and then selling
all of them back through the frontend path, the sale succeeds but the
user's recorded position still shows 909 091 YES shares instead of 0 —
`sellPositionPersistent` never decrements positions. -/
theorem sell_does_not_decrement_position :
    getPositionPersistent c8AfterBuy "m" "u"
      = some { yesShares := 909091, noShares := 0, costBasis := 0 } ∧
    (sellPositionPersistent c8AfterBuy "m" "u" 909091 .YES).2
      = .ok { newPoolState := { marketId := "m", yesReserves := 10000000,
                                noReserves := 9999999, k := 99999990000000,
                                virtualLiquidity := 10000000, totalCollateral := 19999999 },
              usdcOut := 1000001 } ∧
    getPositionPersistent (sellPositionPersistent c8AfterBuy "m" "u" 909091 .YES).1 "m" "u"
      = some { yesShares := 909091, noShares := 0, costBasis := 0 } := by
  refine ⟨rfl, rfl, rfl⟩

/-- The backend store for the C8 witness: an active 10/10 market, no
positions yet. -/
def betDb : DbState :=
  { markets := [{ marketId := "m", title := "t", status := .ACTIVE,
                  resolutionValue := none, yesReserves := 10, noReserves := 10,
                  kInvariant := 100 }],
    positions := [] }

/-- The store after `placeBetDB betDb "m" "u" 5 YES`. -/
def betDbAfter : DbState :=
  { markets := [{ marketId := "m", title := "t", status := .ACTIVE,
                  resolutionValue := none, yesReserves := 6, noReserves := 15,
                  kInvariant := 90 }],
    positions := [{ userId := "u", marketId := "m", outcome := .YES,
                    shares := 4, averageEntryPrice := 5 / 4 }] }

/-- Witness for the amended C8: the backend bet adds exactly the minted
4 shares to a previously empty position. -/
theorem positions_updated_exactly_witness :
    (dbGetPosition betDbAfter "u" "m" .YES).map (fun r => r.shares)
      = some ((((dbGetPosition betDb "u" "m" .YES).map (fun r => r.shares)).getD 0) + 4) :=
  positions_updated_exactly.1 betDb betDbAfter "m" "u" 5 .YES
    { newPoolState := { marketId := "m", yesReserves := 6, noReserves := 15, k := 90,
                        virtualLiquidity := 10, totalCollateral := 5 },
      totalShares := 4, effectivePrice := 5 / 4 }
    rfl

/-! ## Concurrency model for the per-market serialization contract

`placeBetDB` (and the frontend wrapper alike) performs a plain
read-compute-write against the store: it awaits `getMarket`, computes the
trade from what it read, then awaits the reserve/position writes.  Neither
layer takes a lock, queues, or passes a compare-and-swap token
(`updateMarketReserves` receives only the market id and the new values),
so the store admits every interleaving of those phases.  A transaction is
split into its read phase and its write phase; a schedule interleaves
them. -/

/-- One bet transaction against the backend store. -/
structure BetTxn where
  m : String
  u : String
  amount : Int
  o : Outcome
deriving DecidableEq, Repr

/-- Read-and-compute phase of `placeBetDB`: everything before the first
write — load the row, check the status, run the engine. -/
def betRead (db : DbState) (t : BetTxn) : Option BetResult :=
  match dbGetMarket db t.m with
  | none => none
  | some row =>
    if row.status ≠ .ACTIVE then none
    else (placeBet (rowToPoolB row) t.amount t.o).toOption

/-- Write phase of `placeBetDB`: write the reserves computed by the read
phase, then read-and-add the position. -/
def betWrite (db : DbState) (t : BetTxn) (res : BetResult) : DbState :=
  let db1 := dbUpdateMarketReserves db t.m
    res.newPoolState.yesReserves res.newPoolState.noReserves res.newPoolState.k
  let currentShares := ((dbGetPosition db1 t.u t.m t.o).map (fun r => r.shares)).getD 0
  dbUpsertPosition db1 t.u t.m t.o (currentShares + res.totalShares) res.effectivePrice

/-- Serial execution of one transaction: read immediately followed by
write. -/
def execBet (db : DbState) (t : BetTxn) : DbState :=
  match betRead db t with
  | none => db
  | some res => betWrite db t res

/-- The interleaving read₁ read₂ write₁ write₂: both transactions read the
same initial state, then write in order. -/
def execInterleaved (db : DbState) (t1 t2 : BetTxn) : DbState :=
  let r1 := betRead db t1
  let r2 := betRead db t2
  let db1 := match r1 with | none => db | some res => betWrite db t1 res
  match r2 with | none => db1 | some res => betWrite db1 t2 res

/-- The phase split is faithful: `placeBetDB` leaves the store exactly as
the read phase followed by the write phase does. -/
theorem placeBetDB_is_read_then_write (db : DbState) (t : BetTxn) :
    (placeBetDB db t.m t.u t.amount t.o).1 = execBet db t := by
  unfold placeBetDB execBet betRead betWrite
  cases hm : dbGetMarket db t.m with
  | none => rfl
  | some row =>
    dsimp only
    split
    · rfl
    · cases hb : placeBet (rowToPoolB row) t.amount t.o with
      | error e => rfl
      | ok res =>
        dsimp only [Except.toOption]
        cases hp : dbGetPosition
            (dbUpdateMarketReserves db t.m res.newPoolState.yesReserves
              res.newPoolState.noReserves res.newPoolState.k) t.u t.m t.o with
        | none => rfl
        | some pos => rfl

theorem dbGetMarket_upsert (db : DbState) (u m : String) (o : Outcome) (sh : Int)
    (pr : Rat) (m' : String) :
    dbGetMarket (dbUpsertPosition db u m o sh pr) m' = dbGetMarket db m' := by
  unfold dbUpsertPosition
  split
  · rfl
  · rfl

theorem dbGetMarket_update (db : DbState) (m : String) (y n k : Int) (m' : String) :
    dbGetMarket (dbUpdateMarketReserves db m y n k) m'
      = (dbGetMarket db m').map (fun row =>
          if row.marketId == m then
            { row with yesReserves := y, noReserves := n, kInvariant := k }
          else row) := by
  unfold dbGetMarket dbUpdateMarketReserves
  have hpred : (fun (row : MarketRow) => row.marketId == m')
      ∘ (fun row => if row.marketId == m then
          { row with yesReserves := y, noReserves := n, kInvariant := k } else row)
      = fun row => row.marketId == m' := by
    funext row
    simp only [Function.comp]
    by_cases hc : row.marketId == m
    · rw [if_pos hc]
    · rw [if_neg hc]
  rw [List.find?_map, hpred]

theorem dbGetMarket_key {db : DbState} {m : String} {row : MarketRow}
    (h : dbGetMarket db m = some row) : row.marketId = m := by
  unfold dbGetMarket at h
  simpa using List.find?_some h

/-- The interleaving r₁ r₂ w₁ w₂ on a single market loses the first
transaction's update: the final market row is the one the second
transaction computed from the initial state. -/
theorem interleaved_lost_update (db : DbState) (t1 t2 : BetTxn) (r1 r2 : BetResult)
    (hm : t1.m = t2.m)
    (h1 : betRead db t1 = some r1) (h2 : betRead db t2 = some r2) :
    dbGetMarket (execInterleaved db t1 t2) t2.m
      = dbGetMarket (betWrite db t2 r2) t2.m := by
  unfold execInterleaved
  rw [h1, h2]
  dsimp only
  unfold betWrite
  rw [hm]
  rw [dbGetMarket_upsert, dbGetMarket_update, dbGetMarket_upsert, dbGetMarket_update,
    dbGetMarket_upsert, dbGetMarket_update, Option.map_map]
  cases hrow : dbGetMarket db t2.m with
  | none => rfl
  | some row =>
    dsimp only [Option.map, Function.comp]
    by_cases hc : row.marketId == t2.m
    · simp [hc]
    · simp [hc]

theorem betRead_after_write_other (db : DbState) (t1 t2 : BetTxn) (r1 : BetResult)
    (hne : ¬(t2.m = t1.m)) : betRead (betWrite db t1 r1) t2 = betRead db t2 := by
  unfold betRead betWrite
  rw [dbGetMarket_upsert, dbGetMarket_update]
  cases hrow : dbGetMarket db t2.m with
  | none => rfl
  | some row =>
    have hk : row.marketId = t2.m := dbGetMarket_key hrow
    have hne' : ¬(row.marketId = t1.m) := by rw [hk]; exact hne
    simp [hne']

/-- Transactions on two different markets serialize: every interleaving
agrees with running them one after the other. -/
theorem distinct_markets_serialize (db : DbState) (t1 t2 : BetTxn)
    (hne : ¬(t2.m = t1.m)) :
    execInterleaved db t1 t2 = execBet (execBet db t1) t2 := by
  unfold execInterleaved execBet
  cases h1 : betRead db t1 with
  | none => rfl
  | some r1 =>
    dsimp only
    rw [betRead_after_write_other db t1 t2 r1 hne]

/-- C9 (amended): no per-market serialization exists.  `placeBetDB` is
exactly an unsynchronized read phase followed by a write phase against the
shared store; when two transactions on the same market interleave as
read₁ read₂ write₁ write₂ the first update is lost (the final market row
is the one the second transaction computed from the initial state); only
transactions on distinct markets serialize under every interleaving. -/
theorem per_market_serialization_absent :
    (∀ (db : DbState) (t : BetTxn),
        (placeBetDB db t.m t.u t.amount t.o).1 = execBet db t) ∧
    (∀ (db : DbState) (t1 t2 : BetTxn) (r1 r2 : BetResult),
        t1.m = t2.m → betRead db t1 = some r1 → betRead db t2 = some r2 →
        dbGetMarket (execInterleaved db t1 t2) t2.m
          = dbGetMarket (betWrite db t2 r2) t2.m) ∧
    (∀ (db : DbState) (t1 t2 : BetTxn), ¬(t2.m = t1.m) →
        execInterleaved db t1 t2 = execBet (execBet db t1) t2) :=
  ⟨placeBetDB_is_read_then_write,
   interleaved_lost_update,
   distinct_markets_serialize⟩

/-- The race scenario: one active market seeded with 10 USDC per side and
two users each betting 1 USDC on YES. -/
def raceDb : DbState :=
  { markets := [{ marketId := "m", title := "t", status := .ACTIVE,
                  resolutionValue := none, yesReserves := 10000000,
                  noReserves := 10000000, kInvariant := 100000000000000 }],
    positions := [] }

def raceT1 : BetTxn := { m := "m", u := "u1", amount := 1000000, o := .YES }

def raceT2 : BetTxn := { m := "m", u := "u2", amount := 1000000, o := .YES }

/-- C9 (counterexample): under the admitted interleaving r₁ r₂ w₁ w₂ the
final reserves are (9 090 909, 11 000 000) — the stale values transaction
2 computed before transaction 1 wrote — while both serial orders end at
(8 333 333, 12 000 000).  The unserialized store is not serializable:
transaction 2 read reserves transaction 1 was about to overwrite. -/
theorem interleaving_not_serializable :
    (dbGetMarket (execInterleaved raceDb raceT1 raceT2) "m").map
        (fun row => (row.yesReserves, row.noReserves)) = some (9090909, 11000000) ∧
    (dbGetMarket (execBet (execBet raceDb raceT1) raceT2) "m").map
        (fun row => (row.yesReserves, row.noReserves)) = some (8333333, 12000000) ∧
    (dbGetMarket (execBet (execBet raceDb raceT2) raceT1) "m").map
        (fun row => (row.yesReserves, row.noReserves)) = some (8333333, 12000000) ∧
    ((9090909 : Int), (11000000 : Int)) ≠ ((8333333 : Int), (12000000 : Int)) := by
  refine ⟨rfl, rfl, rfl, by decide⟩

/-- The bet result both racing transactions compute from the initial
store. -/
def raceRes : BetResult :=
  { newPoolState := { marketId := "m", yesReserves := 9090909, noReserves := 11000000,
                      k := 99999999000000, virtualLiquidity := 10000000,
                      totalCollateral := 1000000 },
    totalShares := 909091, effectivePrice := 1000000 / 909091 }

/-- Witness for the amended C9 at the race scenario. -/
theorem per_market_serialization_absent_witness :
    dbGetMarket (execInterleaved raceDb raceT1 raceT2) raceT2.m
      = dbGetMarket (betWrite raceDb raceT2 raceRes) raceT2.m :=
  per_market_serialization_absent.2.1 raceDb raceT1 raceT2 raceRes raceRes rfl rfl rfl

/-! ## Cost basis is never tracked (C10) -/

/-- All in-memory positions carry a zero cost basis. -/
def cb0 (l : List (String × InMemoryPool)) : Prop :=
  ∀ e ∈ l, ∀ q ∈ e.2.positions, q.2.costBasis = 0

theorem cb0_nil : cb0 [] := by
  intro e he
  simp at he

theorem cb0_memSet {l : List (String × InMemoryPool)} {m : String} {v : InMemoryPool}
    (h : cb0 l) (hv : ∀ q ∈ v.positions, q.2.costBasis = 0) : cb0 (memSet l m v) := by
  intro e he q hq
  rcases mem_assocSet he with he1 | he1
  · rw [he1] at hq
    exact hv q hq
  · exact h e he1 q hq

theorem cb0_entry {l : List (String × InMemoryPool)} {m : String} {entry : InMemoryPool}
    (h : cb0 l) (hf : memFind l m = some entry) :
    ∀ q ∈ entry.positions, q.2.costBasis = 0 := by
  obtain ⟨e, he, hev⟩ := assocFind_mem hf
  intro q hq
  exact h e he q (by rw [hev]; exact hq)

theorem getPoolStateF_cb0 {s : FrontState} (m : String) (h : cb0 s.mem) :
    cb0 ((getPoolStateF s m).1).mem := by
  unfold getPoolStateF
  cases hf : memFind s.mem m with
  | some entry => exact h
  | none =>
    dsimp only
    split
    · cases hg : dbGetMarket s.db m with
      | some row =>
        dsimp only
        exact cb0_memSet h (by intro q hq; simp at hq)
      | none => exact h
    · exact h

theorem updatePoolStateF_cb0 {s : FrontState} (m : String) (np : PoolState)
    (h : cb0 s.mem) : cb0 (updatePoolStateF s m np).mem := by
  unfold updatePoolStateF
  cases hf : memFind s.mem m with
  | none =>
    dsimp only
    split
    · exact h
    · exact h
  | some entry =>
    dsimp only
    have hset : cb0 (memSet s.mem m { entry with pool := np }) :=
      cb0_memSet h (fun q hq => cb0_entry h hf q hq)
    split
    · exact hset
    · exact hset

theorem updateUserPositionF_cb0 {s : FrontState} (m u : String) (o : Outcome)
    (sh : Int) (pr : Rat) (h : cb0 s.mem) :
    cb0 (updateUserPositionF s m u o sh pr).mem := by
  unfold updateUserPositionF
  cases hf : memFind s.mem m with
  | none =>
    dsimp only
    split
    · exact h
    · exact h
  | some entry =>
    dsimp only
    have hentry := cb0_entry h hf
    have hpos : ((Option.map (fun (e : String × MemPosition) => e.2)
        (entry.positions.find? (fun e => e.1 == u))).getD
        ({ yesShares := 0, noShares := 0, costBasis := 0 } : MemPosition)).costBasis = 0 := by
      cases hfp : entry.positions.find? (fun e => e.1 == u) with
      | none => rfl
      | some q =>
        dsimp only [Option.map, Option.getD]
        exact hentry q (List.mem_of_find?_eq_some hfp)
    have hset : ∀ (newPos : MemPosition), newPos.costBasis = 0 →
        cb0 (memSet s.mem m { entry with positions := posSet entry.positions u newPos }) := by
      intro newPos hnp
      refine cb0_memSet h ?_
      intro q hq
      rcases mem_assocSet hq with hq1 | hq1
      · rw [hq1]
        exact hnp
      · exact hentry q hq1
    cases o with
    | YES => split <;> exact hset _ hpos
    | NO => split <;> exact hset _ hpos

theorem createMarketPersistent_cb0 {s : FrontState} (m title : String) (L : Int)
    (h : cb0 s.mem) : cb0 ((createMarketPersistent s m title L).1).mem := by
  unfold createMarketPersistent
  cases hc : createPool m L with
  | error e => exact h
  | ok pool =>
    dsimp only
    exact cb0_memSet h (by intro q hq; simp at hq)

theorem placeBetPersistent_cb0 {s : FrontState} (m u : String) (a : Int) (o : Outcome)
    (h : cb0 s.mem) : cb0 ((placeBetPersistent s m u a o).1).mem := by
  unfold placeBetPersistent
  have h1 : cb0 ((getPoolStateF s m).1).mem := getPoolStateF_cb0 m h
  cases hg : getPoolStateF s m with
  | mk s1 popt =>
    rw [hg] at h1
    cases popt with
    | none => exact h1
    | some pool =>
      dsimp only
      cases hb : placeBet pool a o with
      | error e => exact h1
      | ok res =>
        dsimp only
        exact updateUserPositionF_cb0 m u o res.totalShares res.effectivePrice
          (updatePoolStateF_cb0 m res.newPoolState h1)

theorem sellPositionPersistent_cb0 {s : FrontState} (m u : String) (a : Int) (o : Outcome)
    (h : cb0 s.mem) : cb0 ((sellPositionPersistent s m u a o).1).mem := by
  unfold sellPositionPersistent
  have h1 : cb0 ((getPoolStateF s m).1).mem := getPoolStateF_cb0 m h
  cases hg : getPoolStateF s m with
  | mk s1 popt =>
    rw [hg] at h1
    cases popt with
    | none => exact h1
    | some pool =>
      dsimp only
      cases hb : sellPosition pool a o with
      | error e => exact h1
      | ok res =>
        dsimp only
        exact updatePoolStateF_cb0 m res.newPoolState h1

/-- The frontend states reachable from a fresh process by market creation,
bets, sells, and changes of the environment flags. -/
inductive ReachableF : FrontState → Prop where
  | init (sb dbok : Bool) :
      ReachableF { mem := [], db := { markets := [], positions := [] },
                   supabase := sb, dbWriteOk := dbok }
  | create {s : FrontState} (m title : String) (L : Int) :
      ReachableF s → ReachableF (createMarketPersistent s m title L).1
  | bet {s : FrontState} (m u : String) (a : Int) (o : Outcome) :
      ReachableF s → ReachableF (placeBetPersistent s m u a o).1
  | sell {s : FrontState} (m u : String) (a : Int) (o : Outcome) :
      ReachableF s → ReachableF (sellPositionPersistent s m u a o).1
  | setFlags {s : FrontState} (sb dbok : Bool) :
      ReachableF s → ReachableF { s with supabase := sb, dbWriteOk := dbok }

theorem reachable_cb0 {s : FrontState} (h : ReachableF s) : cb0 s.mem := by
  induction h with
  | init sb dbok => exact cb0_nil
  | create m title L hr ih => exact createMarketPersistent_cb0 m title L ih
  | bet m u a o hr ih => exact placeBetPersistent_cb0 m u a o ih
  | sell m u a o hr ih => exact sellPositionPersistent_cb0 m u a o ih
  | setFlags sb dbok hr ih => exact ih

theorem memPositionView_cb0 {s : FrontState} (h : cb0 s.mem) (m u : String)
    (v : PositionView) (hv : memPositionView s m u = some v) : v.costBasis = 0 := by
  unfold memPositionView at hv
  cases hf : memFind s.mem m with
  | none => rw [hf] at hv; simp at hv
  | some entry =>
    rw [hf] at hv
    dsimp only at hv
    cases hfp : entry.positions.find? (fun e => e.1 == u) with
    | none => rw [hfp] at hv; simp at hv
    | some q =>
      rw [hfp] at hv
      dsimp only [Option.map] at hv
      injection hv with hv
      rw [← hv]
      exact cb0_entry h hf q (List.mem_of_find?_eq_some hfp)

/-- C10: every position read reports `costBasis = 0`, no matter how many
trades have executed.  The backend hard-codes `'0'`; the frontend either
hard-codes `0` (database path) or reports the in-memory `costBasis`,
which is initialized to zero and never written by any reachable
operation. -/
theorem getPosition_costBasis_zero :
    (∀ (db : DbState) (m u : String) (v : PositionView),
        getPositionDB db m u = some v → v.costBasis = 0) ∧
    (∀ (s : FrontState), ReachableF s → ∀ (m u : String) (v : PositionView),
        getPositionPersistent s m u = some v → v.costBasis = 0) := by
  constructor
  · intro db m u v h
    unfold getPositionDB at h
    dsimp only at h
    split at h
    · simp at h
    · injection h with h
      rw [← h]
  · intro s hr m u v h
    have hcb := reachable_cb0 hr
    unfold getPositionPersistent at h
    split at h
    · split at h
      · exact memPositionView_cb0 hcb m u v h
      · injection h with h
        rw [← h]
    · exact memPositionView_cb0 hcb m u v h

/-- A concrete reachable state: create a 10-unit market in memory, then
bet 5 on YES as user `u`. -/
def c10State : FrontState :=
  (placeBetPersistent
    ((createMarketPersistent
        { mem := [], db := { markets := [], positions := [] },
          supabase := false, dbWriteOk := true } "m" "t" 10).1)
    "m" "u" 5 .YES).1

/-- Witness for C10 after one real trade. -/
theorem getPosition_costBasis_zero_witness :
    ({ yesShares := 4, noShares := 0, costBasis := 0 } : PositionView).costBasis = 0 :=
  getPosition_costBasis_zero.2 c10State
    (ReachableF.bet "m" "u" 5 .YES
      (ReachableF.create "m" "t" 10 (ReachableF.init false true)))
    "m" "u" { yesShares := 4, noShares := 0, costBasis := 0 } rfl
